import Mathlib

/-!
Verification of the Formulary Normalization and Dosing Calculation core
of `app.py` (UMMC nutrition formulary).  Python strings are modelled as
`String` / `List Char`, Python floats as exact rationals `Rat`, pandas
data frames as lists of rows, and fallible operations as `Option` /
`Except`.  All definitions are executable.
-/

namespace Formulary

/-! ## String helpers modelling Python primitives -/

/-- Drop leading and trailing whitespace, as Python `str.strip()` does. -/
def trimWs (l : List Char) : List Char :=
  ((l.dropWhile Char.isWhitespace).reverse.dropWhile Char.isWhitespace).reverse

/-- Accumulator version of whitespace splitting. -/
def splitWsAux : List Char → List Char → List (List Char)
  | [], acc => if acc.isEmpty then [] else [acc.reverse]
  | c :: rest, acc =>
    if c.isWhitespace then
      if acc.isEmpty then splitWsAux rest [] else acc.reverse :: splitWsAux rest []
    else splitWsAux rest (c :: acc)

/-- Python `str.split()` with no argument: split on runs of whitespace,
discarding empty tokens. -/
def splitWs (l : List Char) : List (List Char) := splitWsAux l []

/-- Python `str.replace(",", "")`. -/
def removeCommas (l : List Char) : List Char := l.filter (fun c => !(c == ','))

/-- Value of a digit string, most significant digit first. -/
def digitsToNat (ds : List Char) : Nat :=
  ds.foldl (fun a c => 10 * a + (c.toNat - 48)) 0

/-- Consume an optional leading sign, returning the sign as `1` or `-1`. -/
def parseSign : List Char → Int × List Char
  | [] => (1, [])
  | c :: rest =>
    if c = '+' then (1, rest)
    else if c = '-' then (-1, rest)
    else (1, c :: rest)

/-- Split a character list at the first character satisfying `p`,
dropping that character; `none` when no such character occurs. -/
def splitFirst (p : Char → Bool) : List Char → List Char × Option (List Char)
  | [] => ([], none)
  | c :: rest =>
    if p c then ([], some rest)
    else
      let ab := splitFirst p rest
      (c :: ab.1, ab.2)

/-- Core of Python `float(s)` on a trimmed string: optional sign, decimal
digits with optional fractional part, optional `e`/`E` exponent with
optional sign.  The special `inf`/`nan`/underscore literal forms are
outside this model; no claim exercises them. -/
def pyFloatCore (l : List Char) : Option Rat :=
  let sl := parseSign l
  let mantExp := splitFirst (fun c => c == 'e' || c == 'E') sl.2
  let intFrac := splitFirst (fun c => c == '.') mantExp.1
  let intL := intFrac.1
  let fracL := (intFrac.2).getD []
  if intL.all Char.isDigit && fracL.all Char.isDigit && !(intL.isEmpty && fracL.isEmpty) then
    let num : Int := sl.1 * ((digitsToNat intL * 10 ^ fracL.length + digitsToNat fracL : Nat) : Int)
    let den : Nat := 10 ^ fracL.length
    match mantExp.2 with
    | none => some (mkRat num den)
    | some eL =>
      let esl := parseSign eL
      if esl.2.isEmpty || !(esl.2.all Char.isDigit) then none
      else
        let e := digitsToNat esl.2
        if esl.1 = 1 then some (mkRat (num * ((10 ^ e : Nat) : Int)) den)
        else some (mkRat num (den * 10 ^ e))
  else none

/-- Python `float(s)`: strip surrounding whitespace, then parse. -/
def pyFloat? (l : List Char) : Option Rat := pyFloatCore (trimWs l)

/-- `to_num` from `app.py`: `float(str(val).split()[0].replace(',', ''))`
inside `try`/`except` returning `0.0`.  The `[]` match models the
`IndexError` of `[0]` on an empty split; the `none` match models the
`ValueError` of `float`; both are caught by the bare `except`. -/
def to_num (val : String) : Rat :=
  match splitWs val.toList with
  | [] => 0
  | tok :: _ =>
    match pyFloat? (removeCommas tok) with
    | some x => x
    | none => 0

/-- Restatement of `to_num` in the words of the specification: take the
first whitespace-delimited token, strip commas, parse as a float,
defaulting to `0.0` on any failure. -/
def to_num_spec (v : String) : Rat :=
  (((splitWs v.toList).head?).map (fun tok => (pyFloat? (removeCommas tok)).getD 0)).getD 0

/-- Does `needle` occur at the head of the haystack? -/
def leadMatch : List Char → List Char → Bool
  | [], _ => true
  | _ :: _, [] => false
  | a :: as, b :: bs => a == b && leadMatch as bs

/-- Python substring containment `needle in haystack`. -/
def hasSub (needle : List Char) : List Char → Bool
  | [] => needle.isEmpty
  | c :: rest => leadMatch needle (c :: rest) || hasSub needle rest

/-- Python `str(c).strip()` on a column name. -/
def stripStr (s : String) : String := ⟨trimWs s.toList⟩

/-! ## The raw table and the two views of `load_data` -/

/-- Raw CSV after `fillna("")`: header `col0, product_1, ..., product_n`;
each data row is an attribute name with one string cell per product.
Missing cells are already the empty string. -/
structure RawTable where
  col0 : String
  products : List String
  rows : List (String × List String)
deriving DecidableEq, Inhabited, Repr

/-- Card View: the raw table with its first column renamed. -/
structure CardView where
  attrColName : String
  products : List String
  rows : List (String × List String)
deriving DecidableEq, Inhabited, Repr

/-- Calculation View: the transposed table plus the derived columns
`density_num`, `protein_num` and `Category` added by `load_data`. -/
structure CalcView where
  colNames : List String
  rows : List (List String)
  density_num : List Rat
  protein_num : List Rat
  category : List String
deriving DecidableEq, Inhabited, Repr

/-- Card View construction: copy the raw table, rename the first column
header to the fixed label. -/
def df_cards (t : RawTable) : CardView :=
  ⟨"Nutrient/Attribute", t.products, t.rows⟩

/-- Column `j` of the raw table body, as produced by the transpose:
for each attribute row, the cell of product `j` (empty when absent). -/
def transposeCells (rows : List (String × List String)) (j : Nat) : List String :=
  rows.map (fun p => p.2.getD j "")

/-- Rows of the transposed frame: one row per product, the product name
followed by that product's cell for every attribute. -/
def calcRowsAux (rows : List (String × List String)) : List String → Nat → List (List String)
  | [], _ => []
  | p :: ps, j => (p :: transposeCells rows j) :: calcRowsAux rows ps (j + 1)

/-- Rows of `df_calc` before the derived columns are attached. -/
def calcRows (t : RawTable) : List (List String) := calcRowsAux t.rows t.products 0

/-- The three replacement labels of the duplicate-label loop in `load_data`. -/
def pctLabels : List String := ["% Cal (Prot)", "% Cal (Fat)", "% Cal (CHO)"]

/-- The duplicate-label loop of `load_data`: scan the column names in
order; an occurrence of the literal `"% Calories"` is replaced by the
`count`-th label while `count < len(labels)`, incrementing `count`;
every other name, and any later occurrence, passes through unchanged. -/
def renamePct : List String → Nat → List String
  | [], _ => []
  | c :: rest, k =>
    if c = "% Calories" then
      if k < pctLabels.length then pctLabels.getD k c :: renamePct rest (k + 1)
      else c :: renamePct rest k
    else c :: renamePct rest k

/-- Column names of `df_calc`: the transposed index column renamed to
`"Product Name"`, every name whitespace-stripped, then the
`"% Calories"` renaming pass. -/
def calcColNames (t : RawTable) : List String :=
  renamePct (("Product Name" :: t.rows.map (fun p => p.1)).map stripStr) 0

/-- Index of the first column with the given name, as pandas column
selection `df[name]` resolves a (unique) label. -/
def findCol : List String → String → Option Nat
  | [], _ => none
  | c :: rest, name =>
    if c = name then some 0
    else (findCol rest name).map (fun i => i + 1)

/-- Index of the first column whose name satisfies `p`. -/
def findColBy (p : String → Bool) : List String → Option Nat
  | [] => none
  | c :: rest => if p c then some 0 else (findColBy p rest).map (fun i => i + 1)

/-- The fixed Modular product-name set of `load_data`. -/
def modular_names : List String := ["Prosource TF20", "Nutrisource Fiber", "MCT oil"]

/-- The case-sensitive fragment used to locate the protein column. -/
def proteinNeedle : List Char := "Protein (g/L)".toList

/-- The comprehension `[c for c in df_calc.columns if 'Protein (g/L)' in c]`. -/
def prot_col (t : RawTable) : List String :=
  (calcColNames t).filter (fun c => hasSub proteinNeedle c.toList)

/-- Derived column `density_num`: `to_num` applied to the `"Density"`
column.  `findCol` cannot miss when this list is consumed, because
`df_calc` yields no view at all when `"Density"` is absent. -/
def density_num (t : RawTable) : List Rat :=
  (calcRows t).map (fun r => to_num (r.getD ((findCol (calcColNames t) "Density").getD 0) ""))

/-- Derived column `protein_num`: `to_num` applied to the first column
whose name contains `'Protein (g/L)'`, or the broadcast scalar `0.0`
when no name matches. -/
def protein_num (t : RawTable) : List Rat :=
  match (prot_col t).head? with
  | none => (calcRows t).map (fun _ => 0)
  | some pc => (calcRows t).map (fun r => to_num (r.getD ((findCol (calcColNames t) pc).getD 0) ""))

/-- Derived column `Category`: `"Modular"` for the fixed name set,
`"Formula"` otherwise. -/
def category (t : RawTable) : List String :=
  (calcRows t).map (fun r => if r.getD 0 "" ∈ modular_names then "Modular" else "Formula")

/-- The Calculation View.  `none` models the `KeyError` that
`df_calc['Density']` raises when no `"Density"` column exists. -/
def df_calc (t : RawTable) : Option CalcView :=
  match findCol (calcColNames t) "Density" with
  | none => none
  | some _ => some ⟨calcColNames t, calcRows t, density_num t, protein_num t, category t⟩

/-- `load_data` on an already-obtained raw table: both views. -/
def load_data (t : RawTable) : Option (CardView × CalcView) :=
  (df_calc t).map (fun c => (df_cards t, c))

/-- The file-loading prelude of `load_data`: `try` the primary CSV,
on any exception read the fallback CSV.  A failing read is `none`; a
failure of the unguarded fallback read is an exception that propagates
out of `load_data`, modelled as `Except.error`. -/
def fetch_raw (primary fallback : Option RawTable) : Except String RawTable :=
  match primary with
  | some t => Except.ok t
  | none =>
    match fallback with
    | some t => Except.ok t
    | none => Except.error "read failure"

/-- Whole `load_data` call including the file reads: an exception from
the fallback read or from the `"Density"` lookup propagates. -/
def load_data_full (primary fallback : Option RawTable) :
    Except String (CardView × CalcView) :=
  match fetch_raw primary fallback with
  | Except.error e => Except.error e
  | Except.ok t =>
    match load_data t with
    | none => Except.error "KeyError: Density"
    | some v => Except.ok v

/-! ## The dosing computation -/

/-- Python `round` on a float, modelled on exact rationals: nearest
integer, ties to the even neighbour.  `2 * (x.num - floor * x.den)`
compared with `x.den` compares the fractional part with `1/2` without
leaving integer arithmetic. -/
def pyRound (x : Rat) : Int :=
  if 2 * (x.num - ⌊x⌋ * (x.den : Int)) < (x.den : Int) then ⌊x⌋
  else if (x.den : Int) < 2 * (x.num - ⌊x⌋ * (x.den : Int)) then ⌊x⌋ + 1
  else if ⌊x⌋ % 2 = 0 then ⌊x⌋ else ⌊x⌋ + 1

/-- `safe_density = density if density > 0 else 1.0`. -/
def safe_density (density : Rat) : Rat := if density > 0 then density else 1

/-- `total_vol_needed = net_kcal / safe_density`. -/
def total_vol_needed (net_kcal density : Rat) : Rat := net_kcal / safe_density density

/-- `final_rate = int(5 * round(raw_rate / 5))`, floor-corrected to 5
when rounding gives 0 while `raw_rate > 0`. -/
def final_rate (raw_rate : Rat) : Int :=
  if 5 * pyRound (raw_rate / 5) = 0 ∧ raw_rate > 0 then 5
  else 5 * pyRound (raw_rate / 5)

/-- `final_bolus = int(10 * round(raw_bolus / 10))`, floor-corrected to
10 when rounding gives 0 while `raw_bolus > 0`. -/
def final_bolus (raw_bolus : Rat) : Int :=
  if 10 * pyRound (raw_bolus / 10) = 0 ∧ raw_bolus > 0 then 10
  else 10 * pyRound (raw_bolus / 10)

/-- Continuous/Cyclic branch: goal rate and actual daily volume. -/
def continuousDose (vol : Rat) (hours : Nat) : Int × Int :=
  (final_rate (vol / (hours : Rat)), final_rate (vol / (hours : Rat)) * (hours : Int))

/-- Bolus branch: per-feed volume and actual daily volume. -/
def bolusDose (vol : Rat) (num_feeds : Nat) : Int × Int :=
  (final_bolus (vol / (num_feeds : Rat)), final_bolus (vol / (num_feeds : Rat)) * (num_feeds : Int))

/-! ## Concrete tables used by witnesses and counterexamples -/

/-- Table with three `"% Calories"` attribute rows. -/
def tbl3 : RawTable :=
  ⟨"Nutrient", ["P"],
    [("Density", ["1.5"]), ("% Calories", ["16"]), ("% Calories", ["29"]), ("% Calories", ["55"])]⟩

/-- Table with a repeated `"Sodium"` attribute name. -/
def tbl4 : RawTable :=
  ⟨"Nutrient", ["P"], [("Density", ["1"]), ("Sodium", ["2"]), ("Sodium", ["3"])]⟩

/-- Table whose density and protein cells carry negative numbers. -/
def tbl5 : RawTable :=
  ⟨"Nutrient", ["P"], [("Density", ["-1"]), ("Protein (g/L)", ["-2"])]⟩

/-- Small two-product table. -/
def tbl8 : RawTable :=
  ⟨"Nutrient", ["A", "B"], [("Density", ["1", "2"]), ("Fiber", ["y", "n"])]⟩

/-- Table with two column names containing `'Protein (g/L)'`. -/
def tbl9 : RawTable :=
  ⟨"Nutrient", ["P"],
    [("Density", ["1.5"]), ("Protein (g/L)", ["40"]), ("True Protein (g/L)", ["60"])]⟩

/-- Well-formed table for the nonnegativity witness. -/
def tblW : RawTable :=
  ⟨"Nutrient", ["Jevity 1.5"], [("Density", ["1.5 kcal/mL"]), ("Protein (g/L)", ["63.8"])]⟩

/-- The Card View of `tbl8`, written out. -/
def tbl8cards : CardView :=
  ⟨"Nutrient/Attribute", ["A", "B"], [("Density", ["1", "2"]), ("Fiber", ["y", "n"])]⟩

/-- The Calculation View of `tbl8`, written out. -/
def tbl8calc : CalcView :=
  ⟨["Product Name", "Density", "Fiber"], [["A", "1", "y"], ["B", "2", "n"]],
    [1, 2], [0, 0], ["Formula", "Formula"]⟩

/-! ## Helper lemmas -/

theorem renamePct_length (cols : List String) (k : Nat) :
    (renamePct cols k).length = cols.length := by
  induction cols generalizing k with
  | nil => rfl
  | cons c rest ih =>
    simp only [renamePct]
    split_ifs <;> simp [ih]

theorem renamePct_cons_ne (c : String) (rest : List String) (k : Nat)
    (h : ¬ c = "% Calories") : renamePct (c :: rest) k = c :: renamePct rest k := by
  simp [renamePct, h]

/-- One unfolding step of the duplicate-label loop. -/
theorem renamePct_cons (c : String) (rest : List String) (k : Nat) :
    renamePct (c :: rest) k =
      (if c = "% Calories" then (if k < pctLabels.length then pctLabels.getD k c else c)
       else c) ::
      renamePct rest (if c = "% Calories" ∧ k < pctLabels.length then k + 1 else k) := by
  by_cases h1 : c = "% Calories" <;> by_cases h2 : k < pctLabels.length <;>
    simp [renamePct, h1, h2]

/-- Position-wise description of the duplicate-label loop: position `i`
is relabelled exactly when it holds `"% Calories"` and the running
count at that point is below 3; the label chosen is indexed by that
count. -/
theorem renamePct_getD (cols : List String) (k i : Nat) :
    (renamePct cols k).getD i "" =
      if cols.getD i "" = "% Calories" ∧ k + (cols.take i).count "% Calories" < 3 then
        pctLabels.getD (k + (cols.take i).count "% Calories") ""
      else cols.getD i "" := by
  induction cols generalizing k i with
  | nil => simp [renamePct]
  | cons c rest ih =>
    rw [renamePct_cons]
    cases i with
    | zero =>
      simp only [List.getD_cons_zero, List.take_zero, List.count_nil, Nat.add_zero]
      by_cases h1 : c = "% Calories"
      · by_cases h2 : k < pctLabels.length
        · rw [if_pos h1, if_pos h2, if_pos ⟨h1, by simpa [pctLabels] using h2⟩, h1]
          have h3 : k < 3 := by simpa [pctLabels] using h2
          interval_cases k <;> rfl
        · rw [if_pos h1, if_neg h2,
            if_neg (fun hh => h2 (by simpa [pctLabels] using hh.2))]
      · rw [if_neg h1, if_neg (fun hh => h1 hh.1)]
    | succ i =>
      have htake : ((c :: rest).take (i + 1)).count "% Calories" =
          (if c = "% Calories" then 1 else 0) + (rest.take i).count "% Calories" := by
        simp only [List.take_succ_cons, List.count_cons]
        by_cases h1 : c = "% Calories"
        · simp [h1]
          try omega
        · simp [h1, Ne.symm h1]
          try omega
      simp only [List.getD_cons_succ]
      by_cases h1 : c = "% Calories"
      · by_cases h2 : k < pctLabels.length
        · rw [if_pos (show c = "% Calories" ∧ k < pctLabels.length from ⟨h1, h2⟩),
            ih, htake, if_pos h1]
          split_ifs with ha hb hb
          · congr 1
            omega
          · exact absurd ⟨ha.1, by omega⟩ hb
          · exact absurd ⟨hb.1, by omega⟩ ha
          · rfl
        · have h2n : ¬ k < 3 := by simpa [pctLabels] using h2
          rw [if_neg (show ¬ (c = "% Calories" ∧ k < pctLabels.length) from
              fun hh => h2 hh.2), ih, htake, if_pos h1]
          split_ifs with ha hb hb
          · exact absurd ha.2 (by omega)
          · exact absurd ha.2 (by omega)
          · exact absurd hb.2 (by omega)
          · rfl
      · rw [if_neg (show ¬ (c = "% Calories" ∧ k < pctLabels.length) from
            fun hh => h1 hh.1), ih, htake, if_neg h1]
        simp

theorem stripStr_productName : stripStr "Product Name" = "Product Name" := by decide

theorem productName_ne_pct : ¬ ("Product Name" = "% Calories") := by decide

/-- The first Calculation View column is always `"Product Name"`. -/
theorem calcColNames_cons (t : RawTable) :
    calcColNames t =
      "Product Name" :: renamePct ((t.rows.map (fun p => p.1)).map stripStr) 0 := by
  unfold calcColNames
  rw [List.map_cons, stripStr_productName, renamePct_cons_ne _ _ _ productName_ne_pct]

theorem findCol_isSome_of_mem (cols : List String) (name : String) (h : name ∈ cols) :
    ∃ i, findCol cols name = some i := by
  induction cols with
  | nil => cases h
  | cons c rest ih =>
    by_cases hc : c = name
    · exact ⟨0, by simp [findCol, hc]⟩
    · have hmem : name ∈ rest := by
        rcases List.mem_cons.1 h with h1 | h1
        · exact absurd h1.symm hc
        · exact h1
      rcases ih hmem with ⟨i, hi⟩
      exact ⟨i + 1, by simp [findCol, hc, hi]⟩

/-- A column other than the product-name column is found at a positive
index. -/
theorem findCol_calcColNames_pos (t : RawTable) (name : String)
    (hne : ¬ name = "Product Name") (hmem : name ∈ calcColNames t) :
    ∃ i, findCol (calcColNames t) name = some (i + 1) := by
  rw [calcColNames_cons] at hmem ⊢
  rcases List.mem_cons.1 hmem with h1 | h1
  · exact absurd h1.symm (fun hh => hne hh.symm)
  · rcases findCol_isSome_of_mem _ _ h1 with ⟨i, hi⟩
    refine ⟨i, ?_⟩
    simp only [findCol]
    rw [if_neg (fun hh : "Product Name" = name => hne hh.symm), hi]
    rfl

/-- The head of a filtered list is its first satisfier, and looking that
name up again lands on the same (leftmost) index. -/
theorem head_filter_findCol (p : String → Bool) (cols : List String) (i : Nat)
    (h : findColBy p cols = some i) :
    ∃ pc, (cols.filter p).head? = some pc ∧ p pc = true ∧ findCol cols pc = some i := by
  induction cols generalizing i with
  | nil => cases h
  | cons c rest ih =>
    by_cases hc : p c
    · refine ⟨c, ?_, hc, ?_⟩
      · simp [List.filter_cons, hc]
      · have h0 : 0 = i := by simpa [findColBy, hc] using h
        subst h0
        simp [findCol]
    · have hrest : ∃ j, findColBy p rest = some j ∧ i = j + 1 := by
        simp only [findColBy, hc, if_false, Bool.false_eq_true] at h
        rcases Option.map_eq_some'.1 h with ⟨j, hj, hij⟩
        exact ⟨j, hj, hij.symm⟩
      rcases hrest with ⟨j, hj, hij⟩
      rcases ih j hj with ⟨pc, hh, hp, hf⟩
      refine ⟨pc, ?_, hp, ?_⟩
      · simpa [List.filter_cons, hc] using hh
      · have hcpc : ¬ c = pc := fun hh2 => hc (hh2 ▸ hp)
        simp [findCol, hcpc, hf, hij]

/-- Elements of a transposed column are raw cells or the padding default. -/
theorem transposeCells_getD_cases (rows : List (String × List String)) (i j : Nat) :
    (transposeCells rows j).getD i "" = "" ∨
      ∃ p, p ∈ rows ∧ (transposeCells rows j).getD i "" ∈ p.2 := by
  induction rows generalizing i with
  | nil => left; simp [transposeCells]
  | cons p rest ih =>
    cases i with
    | zero =>
      by_cases hj : j < p.2.length
      · right
        refine ⟨p, List.mem_cons_self _ _, ?_⟩
        simp only [transposeCells, List.map_cons, List.getD_cons_zero]
        rw [List.getD_eq_getElem _ _ hj]
        exact List.getElem_mem _
      · left
        simp only [transposeCells, List.map_cons, List.getD_cons_zero]
        exact List.getD_eq_default _ _ (Nat.le_of_not_lt hj)
    | succ i =>
      have hstep : (transposeCells (p :: rest) j).getD (i + 1) "" =
          (transposeCells rest j).getD i "" := by
        simp [transposeCells]
      rw [hstep]
      rcases ih i with h | ⟨q, hq, hmem⟩
      · left; exact h
      · right; exact ⟨q, List.mem_cons_of_mem _ hq, hmem⟩

/-- Rows of the transpose: each is a product name followed by a column
of transpose cells. -/
theorem calcRowsAux_mem (rows : List (String × List String)) (ps : List String) (j : Nat)
    (r : List String) (hr : r ∈ calcRowsAux rows ps j) :
    ∃ nm jj, nm ∈ ps ∧ r = nm :: transposeCells rows jj := by
  induction ps generalizing j with
  | nil => cases hr
  | cons nm ps ih =>
    rcases List.mem_cons.1 hr with h | h
    · exact ⟨nm, j, List.mem_cons_self _ _, h⟩
    · rcases ih (j + 1) h with ⟨nm2, jj, hmem, heq⟩
      exact ⟨nm2, jj, List.mem_cons_of_mem _ hmem, heq⟩

theorem calcRowsAux_length (rows : List (String × List String)) (ps : List String) (j : Nat) :
    (calcRowsAux rows ps j).length = ps.length := by
  induction ps generalizing j with
  | nil => rfl
  | cons nm ps ih => simp [calcRowsAux, ih]

theorem calcRowsAux_map_head (rows : List (String × List String)) (ps : List String) (j : Nat) :
    (calcRowsAux rows ps j).map (fun r => r.getD 0 "") = ps := by
  induction ps generalizing j with
  | nil => rfl
  | cons nm ps ih =>
    simp only [calcRowsAux, List.map_cons, List.getD_cons_zero]
    rw [ih (j + 1)]

theorem calcRowsAux_getD (rows : List (String × List String)) (ps : List String) (j k : Nat)
    (hk : k < ps.length) :
    (calcRowsAux rows ps j).getD k [] = ps.getD k "" :: transposeCells rows (j + k) := by
  induction ps generalizing j k with
  | nil => cases hk
  | cons nm ps ih =>
    cases k with
    | zero => simp [calcRowsAux]
    | succ k =>
      have hk2 : k < ps.length := Nat.lt_of_succ_lt_succ hk
      simp only [calcRowsAux, List.getD_cons_succ]
      rw [ih (j + 1) k hk2]
      congr 2
      omega

/-- `pyRound` agrees with the textbook description of round-half-even:
fractional part below one half rounds down, above one half rounds up,
and an exact half goes to the even neighbour. -/
theorem pyRound_spec (x : Rat) :
    pyRound x =
      if x - (⌊x⌋ : Rat) < 1/2 then ⌊x⌋
      else if (1 : Rat)/2 < x - (⌊x⌋ : Rat) then ⌊x⌋ + 1
      else if ⌊x⌋ % 2 = 0 then ⌊x⌋ else ⌊x⌋ + 1 := by
  have hden : (0 : Rat) < (x.den : Rat) := by
    exact_mod_cast x.den_pos
  have hnum : (x.num : Rat) = x * (x.den : Rat) :=
    (div_eq_iff (ne_of_gt hden)).1 (Rat.num_div_den x)
  have key1 : (2 * (x.num - ⌊x⌋ * (x.den : Int)) < (x.den : Int)) ↔
      (x - (⌊x⌋ : Rat) < 1/2) := by
    rw [← @Int.cast_lt Rat]
    push_cast
    rw [hnum]
    constructor <;> intro h <;> nlinarith [hden]
  have key2 : ((x.den : Int) < 2 * (x.num - ⌊x⌋ * (x.den : Int))) ↔
      ((1 : Rat)/2 < x - (⌊x⌋ : Rat)) := by
    rw [← @Int.cast_lt Rat]
    push_cast
    rw [hnum]
    constructor <;> intro h <;> nlinarith [hden]
  unfold pyRound
  exact if_congr key1 rfl (if_congr key2 rfl rfl)

/-- Python `round` at an exact half: ties go to the even integer. -/
theorem pyRound_add_half (n : Int) :
    pyRound ((n : Rat) + 1/2) = if n % 2 = 0 then n else n + 1 := by
  have h0 : ⌊(1/2 : Rat)⌋ = 0 := by
    rw [Int.floor_eq_zero_iff]
    constructor
    · norm_num
    · norm_num
  have hfl : ⌊(n : Rat) + 1/2⌋ = n := by
    rw [Int.floor_int_add, h0, add_zero]
  rw [pyRound_spec, hfl]
  have h2 : ((n : Rat) + 1/2) - (n : Rat) = 1/2 := by ring
  rw [h2]
  norm_num

theorem transposeCells_getD_of_lt (rows : List (String × List String)) (i j : Nat)
    (hi : i < rows.length) :
    (transposeCells rows j).getD i "" = ((rows.getD i ("", [])).2).getD j "" := by
  induction rows generalizing i with
  | nil => cases hi
  | cons p rest ih =>
    cases i with
    | zero => simp [transposeCells]
    | succ i =>
      have hi2 : i < rest.length := Nat.lt_of_succ_lt_succ hi
      simp only [transposeCells, List.map_cons, List.getD_cons_succ]
      exact ih i hi2

/-- A cell selected from a Calculation View row at a positive index is a
raw-table cell or the padding default, hence nonnegative under `to_num`
whenever all raw cells are. -/
theorem to_num_cell_nonneg (t : RawTable)
    (hc : ∀ p ∈ t.rows, ∀ v ∈ p.2, 0 ≤ to_num v)
    (r : List String) (hr : r ∈ calcRows t) (i : Nat) (hi : 1 ≤ i) :
    0 ≤ to_num (r.getD i "") := by
  rcases calcRowsAux_mem _ _ _ _ hr with ⟨nm, jj, _, heq⟩
  subst heq
  rcases Nat.exists_eq_add_of_le hi with ⟨k, hk⟩
  subst hk
  rw [Nat.add_comm 1 k, List.getD_cons_succ]
  rcases transposeCells_getD_cases t.rows k jj with hcase | ⟨p, hp, hmem⟩
  · rw [hcase]
    exact le_of_eq (show (0 : Rat) = to_num "" from by decide)
  · exact hc p hp _ hmem

theorem findCol_calcColNames_ne_pos (t : RawTable) (name : String)
    (hne : ¬ ("Product Name" = name)) (i : Nat)
    (h : findCol (calcColNames t) name = some i) : 1 ≤ i := by
  rw [calcColNames_cons] at h
  simp only [findCol] at h
  rw [if_neg hne] at h
  rcases Option.map_eq_some'.1 h with ⟨j, _, hji⟩
  omega

theorem headSomeMem {α : Type} {l : List α} {a : α} (h : l.head? = some a) : a ∈ l := by
  cases l with
  | nil => cases h
  | cons b rest =>
    have hb : b = a := by simpa using h
    subst hb
    exact List.mem_cons_self _ _

/-! ## Claims -/

/-- C1: for every cell value, `to_num` takes the first
whitespace-delimited token, removes commas, and parses it as a float;
on any parse failure it returns `0.0` (and, being a total function, it
never raises); in particular the four specification examples hold. -/
theorem C1_to_num_first_token :
    (∀ v : String, to_num v = to_num_spec v) ∧
    to_num "1.5 kcal/mL" = 3/2 ∧ to_num "" = 0 ∧ to_num "abc" = 0 ∧
    to_num "2,500" = 2500 := by
  refine ⟨?_, ?_, by decide, by decide, by decide⟩
  · intro v
    cases h : splitWs v.data with
    | nil => simp [to_num, to_num_spec, h]
    | cons tok rest =>
      cases h2 : pyFloat? (removeCommas tok) with
      | none => simp [to_num, to_num_spec, h, h2]
      | some x => simp [to_num, to_num_spec, h, h2]
  · have h : to_num "1.5 kcal/mL" = mkRat 3 2 := by decide
    rw [h, Rat.mkRat_eq_divInt, Rat.divInt_eq_div]
    norm_num

/-- C2: for volumeNeeded ≥ 0, hours in 1..24 and feeds in 1..12, the
Continuous branch returns `5 × round(rawRate / 5)` corrected to 5 when
that rounding is 0 while rawRate > 0, with actual volume rate × hours;
the Bolus branch does the same with 10 and feeds. -/
theorem C2_dose_rounding (v : Rat) (hours feeds : Nat) (hv : 0 ≤ v)
    (hh1 : 1 ≤ hours) (hh2 : hours ≤ 24) (hf1 : 1 ≤ feeds) (hf2 : feeds ≤ 12) :
    (continuousDose v hours).1 =
      (if 5 * pyRound (v / (hours : Rat) / 5) = 0 ∧ v / (hours : Rat) > 0 then 5
       else 5 * pyRound (v / (hours : Rat) / 5)) ∧
    (continuousDose v hours).2 = (continuousDose v hours).1 * (hours : Int) ∧
    (bolusDose v feeds).1 =
      (if 10 * pyRound (v / (feeds : Rat) / 10) = 0 ∧ v / (feeds : Rat) > 0 then 10
       else 10 * pyRound (v / (feeds : Rat) / 10)) ∧
    (bolusDose v feeds).2 = (bolusDose v feeds).1 * (feeds : Int) :=
  ⟨rfl, rfl, rfl, rfl⟩

/-- Witness for C2 at the specification example: 1200 mL over 24 hours
or 5 feeds. -/
theorem C2_dose_rounding_witness :
    ((0 : Rat) ≤ 1200 ∧ 1 ≤ 24 ∧ 24 ≤ 24 ∧ 1 ≤ 5 ∧ 5 ≤ 12) ∧
    ((continuousDose 1200 24).1 =
      (if 5 * pyRound ((1200 : Rat) / ((24 : Nat) : Rat) / 5) = 0 ∧
          (1200 : Rat) / ((24 : Nat) : Rat) > 0 then 5
       else 5 * pyRound ((1200 : Rat) / ((24 : Nat) : Rat) / 5)) ∧
     (continuousDose 1200 24).2 = (continuousDose 1200 24).1 * ((24 : Nat) : Int) ∧
     (bolusDose 1200 5).1 =
      (if 10 * pyRound ((1200 : Rat) / ((5 : Nat) : Rat) / 10) = 0 ∧
          (1200 : Rat) / ((5 : Nat) : Rat) > 0 then 10
       else 10 * pyRound ((1200 : Rat) / ((5 : Nat) : Rat) / 10)) ∧
     (bolusDose 1200 5).2 = (bolusDose 1200 5).1 * ((5 : Nat) : Int)) :=
  ⟨⟨by norm_num, by norm_num, by norm_num, by norm_num, by norm_num⟩,
   C2_dose_rounding 1200 24 5 (by norm_num) (by norm_num) (by norm_num)
     (by norm_num) (by norm_num)⟩

/-- C3 counterexample: the code's literal replacement labels are
"% Cal (Prot)", "% Cal (Fat)", "% Cal (CHO)"; the first and third
differ from the claimed "% Cal (Protein)" and "% Cal (Carbohydrate)". -/
theorem C3_labels_cex :
    calcColNames tbl3 =
      ["Product Name", "Density", "% Cal (Prot)", "% Cal (Fat)", "% Cal (CHO)"] ∧
    ¬ ("% Cal (Prot)" = "% Cal (Protein)") ∧
    ¬ ("% Cal (CHO)" = "% Cal (Carbohydrate)") := by
  refine ⟨by decide, by decide, by decide⟩

/-- C3 (amended): the 1st, 2nd and 3rd occurrences of "% Calories" are
renamed, in left-to-right order, to "% Cal (Prot)", "% Cal (Fat)" and
"% Cal (CHO)" respectively; every other position keeps its name. -/
theorem C3_pct_renaming (cols : List String) (i : Nat) :
    (renamePct cols 0).getD i "" =
      if cols.getD i "" = "% Calories" ∧ (cols.take i).count "% Calories" < 3 then
        ["% Cal (Prot)", "% Cal (Fat)", "% Cal (CHO)"].getD
          ((cols.take i).count "% Calories") ""
      else cols.getD i "" := by
  have h := renamePct_getD cols 0 i
  simpa [pctLabels] using h

/-- C4 counterexample: a repeated "Sodium" attribute survives into the
Calculation View as two identically named columns; no suffix is added. -/
theorem C4_distinct_columns_cex :
    (df_calc tbl4).isSome = true ∧
    ((df_calc tbl4).getD default).colNames = ["Product Name", "Density", "Sodium", "Sodium"] ∧
    ¬ (["Product Name", "Density", "Sodium", "Sodium"] : List String).Nodup := by
  refine ⟨by decide, by decide, by decide⟩

/-- C4 (amended): the Normalizer resolves no collisions; every column
name other than a first-three "% Calories" occurrence passes through
the renaming unchanged, so colliding names remain duplicated. -/
theorem C4_no_suffix_dedup (cols : List String) (i : Nat)
    (h : ¬ cols.getD i "" = "% Calories" ∨ 3 ≤ (cols.take i).count "% Calories") :
    (renamePct cols 0).getD i "" = cols.getD i "" := by
  rw [renamePct_getD]
  rcases h with h | h
  · rw [if_neg (fun hh => h hh.1)]
  · rw [if_neg (fun hh => absurd hh.2 (by omega))]

/-- Witness for C4 (amended): the second "Sodium" is left unchanged. -/
theorem C4_no_suffix_dedup_witness :
    (¬ (["Sodium", "Sodium"] : List String).getD 1 "" = "% Calories" ∨
      3 ≤ ((["Sodium", "Sodium"] : List String).take 1).count "% Calories") ∧
    (renamePct ["Sodium", "Sodium"] 0).getD 1 "" =
      (["Sodium", "Sodium"] : List String).getD 1 "" :=
  ⟨Or.inl (by decide), C4_no_suffix_dedup ["Sodium", "Sodium"] 1 (Or.inl (by decide))⟩

/-- C5 counterexample: cells whose first token parses negative give
negative derived fields; nothing clamps them to zero. -/
theorem C5_nonneg_cex :
    (df_calc tbl5).isSome = true ∧
    density_num tbl5 = [-1] ∧ protein_num tbl5 = [-2] ∧
    (-1 : Rat) < 0 ∧ (-2 : Rat) < 0 := by
  refine ⟨by decide, by decide, by decide, by decide, by decide⟩

/-- C5 (amended): `density_num` and `protein_num` are nonnegative for
every table all of whose cells `to_num`-parse nonnegatively (in
particular whenever no cell carries a leading minus sign); they are not
nonnegative unconditionally. -/
theorem C5_nonneg_of_cells (t : RawTable)
    (hD : (findCol (calcColNames t) "Density").isSome = true)
    (hc : ∀ p ∈ t.rows, ∀ v ∈ p.2, 0 ≤ to_num v) :
    (∀ x ∈ density_num t, 0 ≤ x) ∧ (∀ x ∈ protein_num t, 0 ≤ x) := by
  constructor
  · intro x hx
    rcases Option.isSome_iff_exists.1 hD with ⟨di, hdi⟩
    have hpos : 1 ≤ di := findCol_calcColNames_ne_pos t "Density" (by decide) di hdi
    simp only [density_num, hdi, Option.getD_some] at hx
    rcases List.mem_map.1 hx with ⟨r, hr, hxeq⟩
    rw [← hxeq]
    exact to_num_cell_nonneg t hc r hr di hpos
  · intro x hx
    cases hp : (prot_col t).head? with
    | none =>
      simp only [protein_num, hp] at hx
      rcases List.mem_map.1 hx with ⟨r, _, hxeq⟩
      rw [← hxeq]
    | some pc =>
      have hmemf : pc ∈ prot_col t := headSomeMem hp
      have hmem : pc ∈ calcColNames t := (List.mem_filter.1 hmemf).1
      have hsat : hasSub proteinNeedle pc.toList = true := (List.mem_filter.1 hmemf).2
      have hne : ¬ ("Product Name" = pc) := by
        intro hh
        rw [← hh] at hsat
        exact absurd hsat (by decide)
      rcases findCol_calcColNames_pos t pc (fun hh => hne hh.symm) hmem with ⟨i, hi⟩
      simp only [protein_num, hp, hi, Option.getD_some] at hx
      rcases List.mem_map.1 hx with ⟨r, hr, hxeq⟩
      rw [← hxeq]
      exact to_num_cell_nonneg t hc r hr (i + 1) (by omega)

/-- Witness for C5 (amended) on a well-formed table. -/
theorem C5_nonneg_of_cells_witness :
    ((findCol (calcColNames tblW) "Density").isSome = true ∧
      ∀ p ∈ tblW.rows, ∀ v ∈ p.2, 0 ≤ to_num v) ∧
    (∀ x ∈ density_num tblW, 0 ≤ x) ∧ (∀ x ∈ protein_num tblW, 0 ≤ x) :=
  ⟨⟨by decide, by decide⟩, C5_nonneg_of_cells tblW (by decide) (by decide)⟩

/-- C6: the density used as divisor is the product density when
positive and 1.0 otherwise, so it is always strictly positive (never a
division by zero), for any product including density 0. -/
theorem C6_safe_density (d nk : Rat) :
    0 < safe_density d ∧ safe_density d ≠ 0 ∧
    safe_density d = (if d > 0 then d else 1) ∧
    total_vol_needed nk d = nk / safe_density d := by
  have hpos : 0 < safe_density d := by
    unfold safe_density
    split_ifs with h
    · exact h
    · norm_num
  exact ⟨hpos, ne_of_gt hpos, rfl, rfl⟩

/-- C7 counterexample: with both sources unavailable, `load_data`
raises (the read failure propagates as `Except.error`); it does not
return an explicit empty result. -/
theorem C7_no_data_cex :
    load_data_full none none = Except.error "read failure" := rfl

/-- C7 (amended): the loader masks a primary-read failure by reading
the fallback source, but a failure of the unguarded fallback read
propagates out of `load_data` as an exception; no explicit "no data"
result is produced. -/
theorem C7_fallback_or_raise (t : RawTable) (f : Option RawTable) :
    fetch_raw (some t) f = Except.ok t ∧
    fetch_raw none (some t) = Except.ok t ∧
    fetch_raw none none = Except.error "read failure" :=
  ⟨rfl, rfl, rfl⟩

/-- C8: the Card View and the Calculation View of one `load_data` run
hold the same products in the same order and the same cell values,
merely transposed: cell (attribute i, product j) of the Card View is
entry i+1 of Calculation View row j. -/
theorem C8_transpose_roundtrip (t : RawTable) (cards : CardView) (calcv : CalcView)
    (hl : load_data t = some (cards, calcv)) :
    cards.products = t.products ∧ cards.rows = t.rows ∧
    calcv.rows.length = cards.products.length ∧
    calcv.rows.map (fun r => r.getD 0 "") = cards.products ∧
    (∀ i j, i < cards.rows.length → j < cards.products.length →
      (calcv.rows.getD j []).getD (i + 1) "" = ((cards.rows.getD i ("", [])).2).getD j "") := by
  rcases Option.map_eq_some'.1 hl with ⟨cv, hcv, heq⟩
  have hcards : cards = df_cards t := by
    have h1 := congrArg Prod.fst heq
    simpa using h1.symm
  have hcalc : calcv = cv := by
    have h1 := congrArg Prod.snd heq
    simpa using h1.symm
  have hrows : cv.rows = calcRows t := by
    unfold df_calc at hcv
    cases hfd : findCol (calcColNames t) "Density" with
    | none =>
      rw [hfd] at hcv
      cases hcv
    | some di =>
      rw [hfd] at hcv
      have h2 := Option.some.inj hcv
      rw [← h2]
  subst hcards
  subst hcalc
  refine ⟨rfl, rfl, ?_, ?_, ?_⟩
  · rw [hrows]
    exact calcRowsAux_length t.rows t.products 0
  · rw [hrows]
    exact calcRowsAux_map_head t.rows t.products 0
  · intro i j hi hj
    rw [hrows]
    unfold calcRows
    rw [calcRowsAux_getD t.rows t.products 0 j hj]
    rw [List.getD_cons_succ]
    rw [Nat.zero_add]
    exact transposeCells_getD_of_lt t.rows i j hi

/-- Witness for C8 on a concrete two-product table. -/
theorem C8_transpose_roundtrip_witness :
    load_data tbl8 = some (tbl8cards, tbl8calc) ∧
    (tbl8cards.products = tbl8.products ∧ tbl8cards.rows = tbl8.rows ∧
     tbl8calc.rows.length = tbl8cards.products.length ∧
     tbl8calc.rows.map (fun r => r.getD 0 "") = tbl8cards.products ∧
     (∀ i j, i < tbl8cards.rows.length → j < tbl8cards.products.length →
       (tbl8calc.rows.getD j []).getD (i + 1) "" =
         ((tbl8cards.rows.getD i ("", [])).2).getD j "")) :=
  ⟨by decide, C8_transpose_roundtrip tbl8 tbl8cards tbl8calc (by decide)⟩

/-- C9: `protein_num` is computed from the leftmost column whose name
contains the substring 'Protein (g/L)'; any later matching columns are
ignored. -/
theorem C9_leftmost_protein (t : RawTable) (i : Nat)
    (hi : findColBy (fun c => hasSub proteinNeedle c.toList) (calcColNames t) = some i) :
    protein_num t = (calcRows t).map (fun r => to_num (r.getD i "")) := by
  rcases head_filter_findCol _ _ _ hi with ⟨pc, hh, _, hf⟩
  have hh2 : (prot_col t).head? = some pc := hh
  simp only [protein_num, hh2, hf, Option.getD_some]

/-- Witness for C9: with both "Protein (g/L)" and "True Protein (g/L)"
present, column 2 (the leftmost match) is used. -/
theorem C9_leftmost_protein_witness :
    (findColBy (fun c => hasSub proteinNeedle c.toList) (calcColNames tbl9) = some 2) ∧
    protein_num tbl9 = (calcRows tbl9).map (fun r => to_num (r.getD 2 "")) :=
  ⟨by decide, C9_leftmost_protein tbl9 2 (by decide)⟩

/-- C10 counterexample: at rawRate = 2.5 the tie lies between the
multiples 0 and 5 of 5; half-to-even picks quotient 0 (even), but the
zero-correction makes the code report 5, whose quotient 1 is odd.  The
bolus analogue fails at rawBolus = 5. -/
theorem C10_half_even_cex :
    (5 : Rat) / 2 / 5 = ((0 : Int) : Rat) + 1/2 ∧
    final_rate ((5 : Rat) / 2) = 5 ∧ ¬ ((5 : Int) = 5 * 0) ∧
    (5 : Rat) / 10 = ((0 : Int) : Rat) + 1/2 ∧
    final_bolus 5 = 10 ∧ ¬ ((10 : Int) = 10 * 0) := by
  refine ⟨by norm_num, ?_, by decide, by norm_num, ?_, by decide⟩
  · unfold final_rate
    rw [show (5 : Rat) / 2 / 5 = ((0 : Int) : Rat) + 1/2 by norm_num, pyRound_add_half]
    norm_num
  · unfold final_bolus
    rw [show (5 : Rat) / 10 = ((0 : Int) : Rat) + 1/2 by norm_num, pyRound_add_half]
    norm_num

/-- C10 (amended): at an exact tie the rounding is half-to-even, except
that when the even choice is 0 while the raw value is positive the
zero-correction reports 5 (Continuous) or 10 (Bolus) instead. -/
theorem C10_half_even_ties (rawRate rawBolus : Rat) (n m : Int)
    (hr : rawRate / 5 = (n : Rat) + 1/2) (hb : rawBolus / 10 = (m : Rat) + 1/2) :
    final_rate rawRate =
      (if 5 * (if Even n then n else n + 1) = 0 ∧ rawRate > 0 then 5
       else 5 * (if Even n then n else n + 1)) ∧
    final_bolus rawBolus =
      (if 10 * (if Even m then m else m + 1) = 0 ∧ rawBolus > 0 then 10
       else 10 * (if Even m then m else m + 1)) := by
  have hev : ∀ k : Int, (if k % 2 = 0 then k else k + 1) = (if Even k then k else k + 1) := by
    intro k
    by_cases h : Even k
    · rw [if_pos (Int.even_iff.1 h), if_pos h]
    · rw [if_neg (fun hh => h (Int.even_iff.2 hh)), if_neg h]
  constructor
  · unfold final_rate
    rw [hr, pyRound_add_half, hev]
  · unfold final_bolus
    rw [hb, pyRound_add_half, hev]

/-- Witness for C10 (amended): rawRate = 12.5 rounds to 10 (even
quotient 2), not 15. -/
theorem C10_half_even_ties_witness :
    ((25 : Rat) / 2 / 5 = ((2 : Int) : Rat) + 1/2 ∧
      (25 : Rat) / 10 = ((2 : Int) : Rat) + 1/2) ∧
    (final_rate ((25 : Rat) / 2) =
      (if 5 * (if Even (2 : Int) then (2 : Int) else 2 + 1) = 0 ∧ (25 : Rat) / 2 > 0 then 5
       else 5 * (if Even (2 : Int) then (2 : Int) else 2 + 1)) ∧
     final_bolus 25 =
      (if 10 * (if Even (2 : Int) then (2 : Int) else 2 + 1) = 0 ∧ (25 : Rat) > 0 then 10
       else 10 * (if Even (2 : Int) then (2 : Int) else 2 + 1))) :=
  ⟨⟨by norm_num, by norm_num⟩,
   C10_half_even_ties ((25 : Rat) / 2) 25 2 2 (by norm_num) (by norm_num)⟩

end Formulary
